import Mathlib

/-!
Verification development for the RPA Challenge orchestration module
(`src/agent/rpa_challenge/rpa_challenge_agent.py`).

The Python module is shallowly embedded: pure helpers become Lean
functions, the filesystem/network/agent effects become explicit
parameters describing the outcomes each external call would produce, and
Python exception flow (`try`/`except Exception`/`except
asyncio.TimeoutError`/`finally`) becomes explicit `Outcome` passing.
`asyncio.CancelledError` derives from `BaseException` (not `Exception`)
in every Python version this code can run on, so an `except Exception`
handler does not catch it; the `PyExc` type records that distinction.
-/

/-- A row of the parsed spreadsheet: `df.to_dict('records')` yields one
dict (field name to value) per row. -/
abbrev Row : Type := List (String × String)

/-- Python exception classes relevant to the module, grouped by how the
module's handlers treat them: `asyncio.TimeoutError` (caught by `except
asyncio.TimeoutError` and by `except Exception`), any other `Exception`,
and `asyncio.CancelledError` which derives from `BaseException` and is
caught by neither handler. -/
inductive PyExc where
  | timeoutErr : PyExc
  | otherExc (msg : String) : PyExc
  | cancelled : PyExc
deriving DecidableEq

/-- Whether `except Exception` catches this exception. -/
def PyExc.isException : PyExc → Bool
  | .cancelled => false
  | _ => true

/-- The message `str(e)` used when the coordinator records the error. -/
def PyExc.message : PyExc → String
  | .timeoutErr => "TimeoutError"
  | .otherExc m => m
  | .cancelled => "CancelledError"

/-- Result of running a piece of Python code: either a value or a
propagating exception. -/
inductive Outcome (α : Type) where
  | ok (a : α) : Outcome α
  | raise (e : PyExc) : Outcome α
deriving DecidableEq

/-- Whether the outcome is a normally returned value. -/
def Outcome.isOk {α : Type} : Outcome α → Bool
  | .ok _ => true
  | .raise _ => false

/-! ## Artifact Cache (`read_excel_data`, decorated `@lru_cache(maxsize=1)`) -/

/-- State of the `lru_cache(maxsize=1)` wrapper around
`read_excel_data`: at most one entry, keyed by the exact path string,
holding the memoized return value (which is `None` when `pd.read_excel`
raised, since the function catches the exception and returns `None`). -/
structure CacheState where
  entry : Option (String × Option (List Row))
deriving DecidableEq

/-- Observable effects of one call to the cached `read_excel_data`:
the returned value, the cache state after the call, and whether the
wrapped function body ran (i.e. whether the file was read from disk). -/
structure CacheCall where
  value : Option (List Row)
  state : CacheState
  readDisk : Bool
deriving DecidableEq

/-- `read_excel_data(file_path)` under `@lru_cache(maxsize=1)`.
`disk` maps a path to what parsing the file at that path would yield
right now (`none` = `pd.read_excel` raises, which the body catches,
logging and returning `None`). On a key match the memoized value is
returned without running the body; otherwise the body runs and its
result replaces the single cache slot. -/
def read_excel_data (disk : String → Option (List Row)) (st : CacheState)
    (path : String) : CacheCall :=
  match st.entry with
  | some (p, v) =>
    if p = path then ⟨v, st, false⟩
    else
      let v' := disk path
      ⟨v', ⟨some (path, v')⟩, true⟩
  | none =>
    let v' := disk path
    ⟨v', ⟨some (path, v')⟩, true⟩

/-- A `RPAChallengeRunner` instance as constructed by `__init__`: the
fields that matter here are that each instance gets a fresh `run_id`
and that `__init__` allocates no cache of its own — `read_excel_data`
and its `lru_cache` state live at module scope, shared by every runner
in the process. -/
structure RPAChallengeRunner where
  run_id : Nat
deriving DecidableEq

/-- A runner parsing an artifact: `process_excel_data` calls the
module-level `read_excel_data`, so the call goes through the one
process-global cache state regardless of which runner instance is
executing. -/
def runner_read_excel_data (_ : RPAChallengeRunner)
    (disk : String → Option (List Row)) (globalCache : CacheState)
    (path : String) : CacheCall :=
  read_excel_data disk globalCache path

/-! ## Artifact Locator (`find_latest_challenge_file`) -/

/-- A file in the downloads directory (the artifact scope), as the
locator observes it: its name, `os.path.getsize` result, whether
`pd.read_excel` succeeds on it, and `os.path.getctime`. -/
structure DiskFile where
  name : String
  size : Nat
  parsesOk : Bool
  ctime : Nat
deriving DecidableEq

/-- Whether `pat` occurs as a contiguous subsequence of `l`. -/
def containsSeq (pat : List Char) : List Char → Bool
  | [] => pat.isEmpty
  | c :: rest => pat.isPrefixOf (c :: rest) || containsSeq pat rest

/-- The glob pattern `*challenge*.xlsx`: the name ends in `.xlsx` and
contains `challenge` before that extension. (`challenge` contains no
`.`, so it can never straddle the final `.xlsx`.) -/
def matchesChallengeGlob (s : String) : Bool :=
  ".xlsx".data.isSuffixOf s.data
    && containsSeq "challenge".data (s.data.take (s.data.length - 5))

/-- `os.remove` of every file with the given name. -/
def deleteByName (scope : List DiskFile) (n : String) : List DiskFile :=
  scope.filter (fun f => f.name ≠ n)

/-- The validation loop over the glob results: files of size zero are
only logged (kept on disk, not valid); files that fail `pd.read_excel`
are removed from disk; the rest are collected as valid, in scan order.
Returns (valid files, names removed). -/
def globScan : List DiskFile → List DiskFile × List String
  | [] => ([], [])
  | f :: rest =>
    if 0 < f.size then
      if f.parsesOk then (f :: (globScan rest).1, (globScan rest).2)
      else ((globScan rest).1, f.name :: (globScan rest).2)
    else
      globScan rest

/-- `max(valid_files, key=os.path.getctime)`: left-to-right scan keeping
the current maximum, replacing only on a strictly larger key. -/
def maxByCtime (v : DiskFile) (vs : List DiskFile) : DiskFile :=
  vs.foldl (fun best g => if best.ctime < g.ctime then g else best) v

/-- The glob half of `find_latest_challenge_file`: list files matching
`*challenge*.xlsx`, validate each (deleting corrupt ones), and return
the most recently created valid file, or `None` when no valid file is
left. Also returns the scope after the corrupt-file deletions. -/
def globPhase (scope : List DiskFile) : Option String × List DiskFile :=
  let files := scope.filter (fun f => matchesChallengeGlob f.name)
  let scope' := scope.filter (fun f => !((globScan files).2.contains f.name))
  match (globScan files).1 with
  | [] => (none, scope')
  | v :: vs => (some (maxByCtime v vs).name, scope')

/-- `find_latest_challenge_file()`. First checks the direct-download
artifact `challenge_direct.xlsx`: if it exists with positive size it is
returned as soon as it parses, bypassing any creation-time comparison;
if it fails to parse it is deleted. Then falls back to the glob search.
Returns the located path (or `None`) and the scope after any
corrupt-file deletions. -/
def find_latest_challenge_file (scope : List DiskFile) :
    Option String × List DiskFile :=
  match scope.find? (fun f => f.name == "challenge_direct.xlsx") with
  | some f =>
    if 0 < f.size then
      if f.parsesOk then (some f.name, scope)
      else globPhase (deleteByName scope "challenge_direct.xlsx")
    else globPhase scope
  | none => globPhase scope

/-- A file is a valid candidate when it matches the glob pattern, has
positive size, and parses. -/
def isValidCandidate (f : DiskFile) : Bool :=
  matchesChallengeGlob f.name && 0 < f.size && f.parsesOk

/-- Whether the direct-download artifact is present and valid, i.e. the
locator's first branch returns it. -/
def directArtifactValid (scope : List DiskFile) : Bool :=
  match scope.find? (fun f => f.name == "challenge_direct.xlsx") with
  | some f => 0 < f.size && f.parsesOk
  | none => false

/-! ## Agent invocations and the retry/timeout supervisor -/

/-- The `AgentHistoryList` facets the coordinator branches on. -/
structure AgentHistory where
  is_done : Bool
  errors : List String
deriving DecidableEq

/-- How one `agent.run(...)` invocation under `asyncio.wait_for` ends:
it completes (returning a history), exceeds the time budget, or is
cancelled from outside. -/
inductive InvOutcome where
  | completed (h : AgentHistory) : InvOutcome
  | timeout : InvOutcome
  | cancelled : InvOutcome
deriving DecidableEq

/-- Whether the invocation timed out. -/
def InvOutcome.isTimeout : InvOutcome → Bool
  | .timeout => true
  | _ => false

/-- `asyncio.wait_for(agent.run(...), timeout=...)`: a completion
returns the history, exceeding the budget raises
`asyncio.TimeoutError`, cancellation raises `asyncio.CancelledError`. -/
def waitFor (o : InvOutcome) : Outcome AgentHistory :=
  match o with
  | .completed h => .ok h
  | .timeout => .raise .timeoutErr
  | .cancelled => .raise .cancelled

/-- One `asyncio.wait_for(agent.run(max_steps=...), timeout=...)` call,
recorded with the budgets it was given. -/
structure Invocation where
  max_steps : Nat
  time_budget : Nat
deriving DecidableEq

/-- Result of the retry-wrapped invocation: the final outcome and the
list of `wait_for` calls that were made, with their budgets. -/
structure RetryResult where
  result : Outcome AgentHistory
  invocations : List Invocation
deriving DecidableEq

/-- The retry/timeout pattern shared verbatim by `run_download_agent`
(budgets 25/300) and `run_process_agent` (budgets 100/600):

    try:
        history = await asyncio.wait_for(agent.run(max_steps=steps), timeout=time)
    except asyncio.TimeoutError:
        history = await asyncio.wait_for(agent.run(max_steps=steps), timeout=time)

`behavior n` is how the (n+1)-th `run` call would end. Only
`asyncio.TimeoutError` is caught, only once, and the re-invocation uses
the identical budgets; a second `TimeoutError` (and any cancellation)
propagates. -/
def invoke_with_retry (behavior : Nat → InvOutcome) (steps time : Nat) :
    RetryResult :=
  match waitFor (behavior 0) with
  | .ok h => ⟨.ok h, [⟨steps, time⟩]⟩
  | .raise .timeoutErr => ⟨waitFor (behavior 1), [⟨steps, time⟩, ⟨steps, time⟩]⟩
  | .raise e => ⟨.raise e, [⟨steps, time⟩]⟩

/-! ## Fetch phase (`run_download_agent`) -/

/-- What the direct HTTP fetch wrote to `challenge_direct.xlsx`: the
byte count of the response body, and the result of `pd.read_excel` on
the written file (`none` = parsing raises, `some n` = a frame with `n`
rows). -/
structure DirectContent where
  size : Nat
  parsed : Option Nat
deriving DecidableEq

/-- Environment of one `run_download_agent` call. `directNet = none`
means the network request raised (an ordinary `Exception`).
`liteOutcome` is how the lightweight page-confirmation invocation
(`max_steps=5`, `timeout=60`) would end; `fetchBehavior` drives the
fallback download agent (`max_steps=25`, `timeout=300`). -/
structure DownloadEnv where
  contextOk : Bool
  directNet : Option DirectContent
  liteOutcome : InvOutcome
  fetchBehavior : Nat → InvOutcome

/-- Observable result of `run_download_agent`: its outcome, how many
times the lightweight confirmation agent ran, whether the agent-driven
fetch strategy (the fallback block) was entered, and how many
`agent.run` calls that fallback made. -/
structure DownloadResult where
  outcome : Outcome AgentHistory
  liteInvocations : Nat
  fallbackEntered : Bool
  fallbackRunCalls : Nat
deriving DecidableEq

/-- Whether the direct fetch passed its validation: file written with
positive size, `pd.read_excel` succeeds, and the frame has at least one
row. -/
def directFetchValid (net : Option DirectContent) : Bool :=
  match net with
  | some c => 0 < c.size && (match c.parsed with
      | some rows => 0 < rows
      | none => false)
  | none => false

/-- `run_download_agent(llm)`. Raises `ValueError` when the context was
never initialized. Otherwise tries the direct HTTP fetch; network
errors and validation failures are caught by the surrounding `except
Exception` blocks and fall through to the agent-driven fetch. When the
direct fetch validates, the lightweight confirmation agent runs inside
the same `try`, so its `TimeoutError` is also caught by `except
Exception` and falls through to the agent-driven fetch, while its
cancellation propagates. The agent-driven fetch is wrapped in the
single-retry timeout pattern with budgets 25/300. -/
def run_download_agent (env : DownloadEnv) : DownloadResult :=
  if env.contextOk = false then
    ⟨.raise (.otherExc "Browser context nao inicializado"), 0, false, 0⟩
  else
    let fb := invoke_with_retry env.fetchBehavior 25 300
    let fallback : DownloadResult := ⟨fb.result, 0, true, fb.invocations.length⟩
    match env.directNet with
    | none => fallback
    | some c =>
      if 0 < c.size then
        match c.parsed with
        | some rows =>
          if 0 < rows then
            match waitFor env.liteOutcome with
            | .ok h => ⟨.ok h, 1, false, 0⟩
            | .raise .cancelled => ⟨.raise .cancelled, 1, false, 0⟩
            | .raise _ =>
              ⟨fb.result, 1, true, fb.invocations.length⟩
          else fallback
        | none => fallback
      else fallback

/-! ## Submission phase (`run_process_agent`) -/

/-- `run_process_agent(llm, excel_data)`: `ValueError` when the context
is missing, otherwise the single-retry timeout pattern with budgets
100/600. Returns the outcome and the number of `agent.run` calls. -/
def run_process_agent (contextOk : Bool) (behavior : Nat → InvOutcome) :
    Outcome AgentHistory × Nat :=
  if contextOk = false then (.raise (.otherExc "Browser context nao inicializado"), 0)
  else
    let r := invoke_with_retry behavior 100 600
    (r.result, r.invocations.length)

/-! ## Validation poll loop (inside `run_automation`) -/

/-- What one poll attempt observes: the locator's result, the size read
right after locating, and the size re-read after the 2-second delay. -/
structure PollObs where
  located : Option String
  sizeAtCheck : Nat
  sizeAfterDelay : Nat
deriving DecidableEq

/-- Result of the poll loop: the value of the `excel_file` variable
after the loop, the number of attempts executed, and whether the loop
ended through the stability-check `break`. -/
structure PollResult where
  file : Option String
  attempts : Nat
  accepted : Bool
deriving DecidableEq

/-- One step of `for attempt in range(5)`: `excel_file` is reassigned
from the locator on every attempt; when it is truthy and the size is
positive and unchanged after the delay, the loop breaks; every other
case falls through to the backoff sleep and the next attempt. Note the
variable keeps the located path even when the stability check fails. -/
def pollGo (obs : Nat → PollObs) : Nat → Nat → Option String → PollResult
  | 0, i, cur => ⟨cur, i, false⟩
  | fuel + 1, i, _ =>
    let o := obs i
    match o.located with
    | some f =>
      if 0 < o.sizeAtCheck then
        if o.sizeAtCheck = o.sizeAfterDelay then ⟨some f, i + 1, true⟩
        else pollGo obs fuel (i + 1) (some f)
      else pollGo obs fuel (i + 1) (some f)
    | none => pollGo obs fuel (i + 1) none

/-- The full `for attempt in range(5)` poll loop, starting from
`excel_file = None`. -/
def pollLoop (obs : Nat → PollObs) : PollResult :=
  pollGo obs 5 0 none

/-- The error message raised when the loop ends with `excel_file`
falsy. -/
def notFoundMsg : String :=
  "Nao foi possivel encontrar o arquivo Excel apos varias tentativas"

/-! ## Run Coordinator (`run_automation`) -/

/-- Environment of one `run_automation` call: outcomes of every
external effect it can trigger. `processExcel` is the outcome of
`process_excel_data()` (which raises an `Exception` when the file
cannot be found or read); `closeErr` is the exception, if any, raised
inside `close_resources` while closing the context or browser. -/
structure AutomationEnv where
  contextOk : Bool
  directNet : Option DirectContent
  liteOutcome : InvOutcome
  fetchBehavior : Nat → InvOutcome
  pollObs : Nat → PollObs
  processExcel : Outcome (List Row)
  submitBehavior : Nat → InvOutcome
  closeErr : Option String

/-- The Result Record dict as far as its externally specified shape
goes: the success flag, the optional error string, and the summary
lines. -/
structure ResultRecord where
  success : Bool
  error : Option String
  summary : List String
deriving DecidableEq

/-- Everything observable about one `run_automation` call: what crossed
the coordinator boundary (a returned record, or a propagating
exception), how many times the summary file was written, whether
`process_excel_data` was reached (the parsing phase), whether
`close_resources` ran, and whether a close-time error was logged. -/
structure RunOutput where
  result : Outcome ResultRecord
  summaryWrites : Nat
  reachedParsing : Bool
  closed : Bool
  closeErrorLogged : Bool
deriving DecidableEq

/-- `close_resources()`: closes context then browser inside a
`try`/`except Exception` whose handler only logs, so the call itself
always returns normally. Returns (outcome, whether an error was
logged). -/
def close_resources (closeErr : Option String) : Outcome Unit × Bool :=
  match closeErr with
  | some _ => (.ok (), true)
  | none => (.ok (), false)

/-- The body of `run_automation`'s `try` block: download phase,
`is_done` check, poll loop, `process_excel_data`, submission phase,
`is_done` check, then the success record. Returns the outcome and
whether the parsing phase (`process_excel_data`) was reached. -/
def runBody (env : AutomationEnv) : Outcome ResultRecord × Bool :=
  let d := run_download_agent ⟨env.contextOk, env.directNet, env.liteOutcome, env.fetchBehavior⟩
  match d.outcome with
  | .raise e => (.raise e, false)
  | .ok dh =>
    if dh.is_done = false then
      (.raise (.otherExc "Falha ao baixar o arquivo Excel"), false)
    else
      match (pollLoop env.pollObs).file with
      | none => (.raise (.otherExc notFoundMsg), false)
      | some _ =>
        match env.processExcel with
        | .raise e => (.raise e, true)
        | .ok _ =>
          match (run_process_agent env.contextOk env.submitBehavior).1 with
          | .raise e => (.raise e, true)
          | .ok ph =>
            if ph.is_done = false then
              (.raise (.otherExc "Falha ao processar os dados do formulario"), true)
            else
              (.ok ⟨true, none, ["RESUMO FINAL DA EXECUCAO"]⟩, true)

/-- `run_automation(llm, ...)`. The `try` body's exceptions hit `except
Exception`, which writes the summary file and returns a
`success=False` record carrying `str(e)`; exceptions that are not
`Exception` instances (`asyncio.CancelledError`) cross the boundary
unhandled and skip the summary write. The success path writes the
summary once and returns a `success=True` record. The `finally` clause
runs `close_resources` on every path; `close_resources` swallows its
own errors, so it never changes which result crosses the boundary. -/
def run_automation (env : AutomationEnv) : RunOutput :=
  let o := (runBody env).1
  let reached := (runBody env).2
  let closeLog := (close_resources env.closeErr).2
  match o with
  | .ok r => ⟨.ok r, 1, reached, true, closeLog⟩
  | .raise e =>
    if e.isException then
      ⟨.ok ⟨false, some e.message, [e.message]⟩, 1, reached, true, closeLog⟩
    else
      ⟨.raise e, 0, reached, true, closeLog⟩

/-- Replace only the `closeErr` component of an environment. -/
def setCloseErr (env : AutomationEnv) (m : Option String) : AutomationEnv :=
  ⟨env.contextOk, env.directNet, env.liteOutcome, env.fetchBehavior,
   env.pollObs, env.processExcel, env.submitBehavior, m⟩

/-- Replace the fetch-phase components of an environment so the run
takes the agent-driven fetch fallback driven by `behavior`. -/
def setFetchFallback (env : AutomationEnv) (behavior : Nat → InvOutcome) :
    AutomationEnv :=
  ⟨true, none, env.liteOutcome, behavior,
   env.pollObs, env.processExcel, env.submitBehavior, env.closeErr⟩

/-- A record-producing outcome: the caller got a dict back (never an
exception), with an error message present whenever success is false. -/
def isOkRecord : Outcome ResultRecord → Bool
  | .ok r => r.success || r.error.isSome
  | .raise _ => false

/-- An outcome that is a returned record with `success=False`. -/
def isFailureRecord : Outcome ResultRecord → Bool
  | .ok r => !r.success
  | .raise _ => false

/-! ## Statement-level predicates and concrete instances -/

/-- The files of a scope that match the candidate pattern. -/
def remainingCandidates (scope : List DiskFile) : List DiskFile :=
  scope.filter (fun f => matchesChallengeGlob f.name)

/-- Every file of the scope matches the candidate pattern and fails
validation ("contains only corrupt candidate files"). -/
def onlyCorruptCandidates (scope : List DiskFile) : Bool :=
  scope.all (fun f => matchesChallengeGlob f.name && !(isValidCandidate f))

/-- Whether the scope holds at least one valid candidate. -/
def hasValidCandidate (scope : List DiskFile) : Bool :=
  scope.any isValidCandidate

/-- `g` is a valid candidate whose creation time is at least that of
every valid candidate in the scope. -/
def isLatestValid (scope : List DiskFile) (g : DiskFile) : Bool :=
  isValidCandidate g
    && scope.all (fun f => !(isValidCandidate f) || decide (f.ctime ≤ g.ctime))

/-- The locator returned the name of a maximal-ctime valid candidate of
the scope. -/
def returnsLatestValidCandidate (scope : List DiskFile) : Bool :=
  match (find_latest_challenge_file scope).1 with
  | none => false
  | some n => scope.any (fun g => g.name == n && isLatestValid scope g)

/-- A poll attempt that yields a stable, valid candidate: something was
located, with positive size, unchanged across the delay. -/
def attemptStable (o : PollObs) : Bool :=
  o.located.isSome && decide (0 < o.sizeAtCheck)
    && decide (o.sizeAtCheck = o.sizeAfterDelay)

/-- None of the five poll attempts yields a stable, valid candidate. -/
def noStableAttempt (obs : Nat → PollObs) : Bool :=
  (List.range 5).all (fun i => !(attemptStable (obs i)))

/-- No external call of the run is cancelled from outside (every
exception the run can see is an ordinary `Exception`). -/
def noCancellation (env : AutomationEnv) : Prop :=
  env.liteOutcome ≠ .cancelled
    ∧ env.fetchBehavior 0 ≠ .cancelled
    ∧ env.fetchBehavior 1 ≠ .cancelled
    ∧ env.processExcel ≠ .raise .cancelled
    ∧ env.submitBehavior 0 ≠ .cancelled
    ∧ env.submitBehavior 1 ≠ .cancelled

/-- A history whose `is_done()` is true. -/
def histDone : AgentHistory := ⟨true, []⟩

/-- An agent that completes every invocation successfully. -/
def behaviorDone : Nat → InvOutcome := fun _ => .completed histDone

/-- An agent that is cancelled on its first invocation. -/
def behaviorCancelled : Nat → InvOutcome := fun _ => .cancelled

/-- An agent that times out on every invocation. -/
def behaviorTimeoutTwice : Nat → InvOutcome := fun _ => .timeout

/-- An agent that times out once and then completes. -/
def behaviorTimeoutThenDone : Nat → InvOutcome :=
  fun n => if n = 0 then .timeout else .completed histDone

/-- Poll observations that locate a stable, non-empty artifact at once. -/
def obsFound : Nat → PollObs := fun _ => ⟨some "challenge_direct.xlsx", 100, 100⟩

/-- Poll observations that never locate anything. -/
def obsNever : Nat → PollObs := fun _ => ⟨none, 0, 0⟩

/-- Poll observations that always locate a file whose size keeps
changing (a download that never stabilizes). -/
def obsUnstable : Nat → PollObs := fun _ => ⟨some "challenge.xlsx", 1, 2⟩

/-- A run environment in which every phase other than the poll loop
succeeds: the direct fetch validates, every agent completes with a done
history, parsing succeeds, and closing is clean. -/
def benignEnv (obs : Nat → PollObs) : AutomationEnv :=
  ⟨true, some ⟨1000, some 10⟩, .completed histDone, behaviorDone, obs,
   .ok [[("First Name", "Ana")]], behaviorDone, none⟩

/-- A fully benign environment (poll succeeds immediately). -/
def baseEnv : AutomationEnv := benignEnv obsFound

/-- An environment whose fetch-phase fallback agent is cancelled from
outside mid-run. -/
def cancelEnv : AutomationEnv :=
  ⟨true, none, .completed histDone, behaviorCancelled, obsFound,
   .ok [[("First Name", "Ana")]], behaviorDone, none⟩

/-- A download environment where the direct fetch validates but the
lightweight confirmation invocation times out. -/
def liteTimeoutEnv : DownloadEnv := ⟨true, some ⟨1000, some 10⟩, .timeout, behaviorDone⟩

/-- A download environment for the witness: direct fetch validates and
the confirmation invocation completes. -/
def directOkEnv : DownloadEnv := ⟨true, some ⟨1000, some 10⟩, .completed histDone, behaviorDone⟩

/-- A scope holding a valid direct-download artifact older than another
valid candidate. -/
def directOlderScope : List DiskFile :=
  [⟨"challenge_direct.xlsx", 5, true, 1⟩, ⟨"newer_challenge.xlsx", 5, true, 10⟩]

/-- A scope with two valid pattern candidates and no direct artifact. -/
def twoCandidateScope : List DiskFile :=
  [⟨"old_challenge.xlsx", 5, true, 1⟩, ⟨"new_challenge.xlsx", 5, true, 9⟩]

/-- A scope holding a single zero-byte candidate file. -/
def zeroByteScope : List DiskFile := [⟨"a_challenge.xlsx", 0, false, 0⟩]

/-- A scope holding only positive-size candidates that fail parsing. -/
def corruptScope : List DiskFile :=
  [⟨"challenge_direct.xlsx", 7, false, 1⟩, ⟨"b_challenge.xlsx", 9, false, 2⟩]

/-- Two distinct runner instances of one process. -/
def runnerA : RPAChallengeRunner := ⟨0⟩

/-- Second runner instance. -/
def runnerB : RPAChallengeRunner := ⟨1⟩

/-- A disk on which every path parses to one fixed record. -/
def diskOneRecord : String → Option (List Row) :=
  fun _ => some [[("First Name", "Ana")]]

/-- A disk on which no path parses. -/
def diskEmpty : String → Option (List Row) := fun _ => none

/-- A disk on which exactly `a.xlsx` parses. -/
def diskOnlyA : String → Option (List Row) :=
  fun p => if p = "a.xlsx" then some [[("First Name", "Ana")]] else none

/-! ## Helper lemmas: the artifact cache -/

/-- After any call, the cache slot is keyed by the path just requested. -/
theorem read_excel_data_state (disk : String → Option (List Row))
    (st : CacheState) (path : String) :
    ∃ v, (read_excel_data disk st path).state.entry = some (path, v)
      ∧ (read_excel_data disk st path).value = v := by
  unfold read_excel_data
  rcases st with ⟨_ | ⟨p, v⟩⟩
  · exact ⟨disk path, rfl, rfl⟩
  · by_cases hp : p = path
    · subst hp
      simp only [if_pos rfl]
      exact ⟨v, rfl, rfl⟩
    · simp only [if_neg hp]
      exact ⟨disk path, rfl, rfl⟩

/-- A call against a state whose slot is keyed by the requested path is
a pure cache hit. -/
theorem read_excel_data_hit_of_entry (disk' : String → Option (List Row))
    (S : CacheState) (path : String) (v : Option (List Row))
    (hs : S.entry = some (path, v)) :
    read_excel_data disk' S path = ⟨v, S, false⟩ := by
  unfold read_excel_data
  rw [hs]
  simp

/-- A call right after a call with the same path is a pure cache hit,
whatever the file at that path would parse to now. -/
theorem read_excel_data_hit (disk disk' : String → Option (List Row))
    (st : CacheState) (path : String) :
    read_excel_data disk' (read_excel_data disk st path).state path
      = ⟨(read_excel_data disk st path).value,
         (read_excel_data disk st path).state, false⟩ := by
  obtain ⟨v, hs, hv⟩ := read_excel_data_state disk st path
  rw [read_excel_data_hit_of_entry disk' _ path v hs, hv]

/-- A call with a fresh path runs the body and replaces the slot. -/
theorem read_excel_data_miss (disk : String → Option (List Row))
    (st : CacheState) (path : String)
    (h : ∀ v, st.entry ≠ some (path, v)) :
    read_excel_data disk st path
      = ⟨disk path, ⟨some (path, disk path)⟩, true⟩ := by
  rcases st with ⟨_ | ⟨p, v⟩⟩
  · rfl
  · have hp : ¬(p = path) := by
      intro hpe
      exact h v (by rw [hpe])
    simp [read_excel_data, hp]

/-- C8: the parse operation is memoized by exact path string with
capacity one — an immediate second call with the same path is a cache
hit (the file is not read again, the value and the cache slot are
unchanged), and a call with a different path reads the disk and
replaces the single slot with the new key. -/
theorem c8_cache_capacity_one (disk disk' : String → Option (List Row))
    (st : CacheState) (path p' : String) (hne : p' ≠ path) :
    (read_excel_data disk' (read_excel_data disk st path).state path).readDisk = false
    ∧ (read_excel_data disk' (read_excel_data disk st path).state path).value
        = (read_excel_data disk st path).value
    ∧ (read_excel_data disk' (read_excel_data disk st path).state path).state
        = (read_excel_data disk st path).state
    ∧ (read_excel_data disk' (read_excel_data disk st path).state p').readDisk = true
    ∧ (read_excel_data disk' (read_excel_data disk st path).state p').state.entry
        = some (p', disk' p') := by
  obtain ⟨v, hs, _⟩ := read_excel_data_state disk st path
  have hmiss := read_excel_data_miss disk' (read_excel_data disk st path).state p' (by
    intro w hw
    have heq := hs.symm.trans hw
    injection heq with hpair
    rw [Prod.mk.injEq] at hpair
    exact hne hpair.1.symm)
  rw [read_excel_data_hit disk disk' st path]
  refine ⟨rfl, rfl, rfl, ?_, ?_⟩ <;> rw [hmiss]

/-- C8 witness: a run of the cache at concrete inputs. -/
theorem c8_witness :
    ("b.xlsx" : String) ≠ "a.xlsx"
    ∧ (read_excel_data diskOnlyA (read_excel_data diskEmpty ⟨none⟩ "a.xlsx").state "a.xlsx").readDisk = false
    ∧ (read_excel_data diskOnlyA (read_excel_data diskEmpty ⟨none⟩ "a.xlsx").state "a.xlsx").value
        = (read_excel_data diskEmpty ⟨none⟩ "a.xlsx").value
    ∧ (read_excel_data diskOnlyA (read_excel_data diskEmpty ⟨none⟩ "a.xlsx").state "a.xlsx").state
        = (read_excel_data diskEmpty ⟨none⟩ "a.xlsx").state
    ∧ (read_excel_data diskOnlyA (read_excel_data diskEmpty ⟨none⟩ "a.xlsx").state "b.xlsx").readDisk = true
    ∧ (read_excel_data diskOnlyA (read_excel_data diskEmpty ⟨none⟩ "a.xlsx").state "b.xlsx").state.entry
        = some ("b.xlsx", diskOnlyA "b.xlsx") := by
  refine ⟨by decide, ?_⟩
  exact c8_cache_capacity_one diskEmpty diskOnlyA ⟨none⟩ "a.xlsx" "b.xlsx" (by decide)

/-- C9 counterexample: the cache is not private to a run. Two distinct
runner instances share the module-level cache: after runner A parses
`p.xlsx` starting from an empty cache, runner B's parse of the same
path is a cache hit (the file is not read) and returns the value cached
during A's run, contradicting the claim that an entry populated during
run A cannot produce a cache hit during run B. -/
theorem c9_shared_cache_counterexample :
    runnerA.run_id ≠ runnerB.run_id
    ∧ (runner_read_excel_data runnerB diskOneRecord
        (runner_read_excel_data runnerA diskOneRecord ⟨none⟩ "p.xlsx").state
        "p.xlsx").readDisk = false
    ∧ (runner_read_excel_data runnerB diskOneRecord
        (runner_read_excel_data runnerA diskOneRecord ⟨none⟩ "p.xlsx").state
        "p.xlsx").value
      = (runner_read_excel_data runnerA diskOneRecord ⟨none⟩ "p.xlsx").value := by
  exact ⟨by decide, rfl, rfl⟩

/-- C9 amended: the parse cache is module-global, not per-run — for any
two runner instances (in particular distinct ones), any starting cache
state and any path, a parse by runner B performed right after runner A
parsed the same path is a cache hit: the file is not read again (even
if its content changed on disk), B observes exactly the value and cache
state produced during A's run. -/
theorem c9_global_cache_amended (a b : RPAChallengeRunner)
    (disk disk' : String → Option (List Row)) (st : CacheState) (path : String) :
    runner_read_excel_data b disk' (runner_read_excel_data a disk st path).state path
      = ⟨(runner_read_excel_data a disk st path).value,
         (runner_read_excel_data a disk st path).state, false⟩ := by
  unfold runner_read_excel_data
  exact read_excel_data_hit disk disk' st path

/-- C10: a parse failure is memoized like a success — after a call on
`path` that failed (cached value `None`), a second call with the same
path returns the stale `None` without reading the file even though a
valid file now exists at that path, and only a call with a different
path evicts the stale failure entry, after which `path` is re-read and
the new content is returned. -/
theorem c10_failure_cached (disk1 disk2 : String → Option (List Row))
    (path p' : String) (rows : List Row)
    (h1 : disk1 path = none) (h2 : disk2 path = some rows) (hne : p' ≠ path) :
    read_excel_data disk1 ⟨none⟩ path = ⟨none, ⟨some (path, none)⟩, true⟩
    ∧ read_excel_data disk2 ⟨some (path, none)⟩ path
        = ⟨none, ⟨some (path, none)⟩, false⟩
    ∧ (read_excel_data disk2
        (read_excel_data disk2 ⟨some (path, none)⟩ p').state path).value = some rows
    ∧ (read_excel_data disk2
        (read_excel_data disk2 ⟨some (path, none)⟩ p').state path).readDisk = true := by
  have hfirst : read_excel_data disk1 ⟨none⟩ path = ⟨none, ⟨some (path, none)⟩, true⟩ := by
    rw [read_excel_data_miss disk1 ⟨none⟩ path (by intro v hv; exact Option.noConfusion hv), h1]
  have hstale : read_excel_data disk2 ⟨some (path, none)⟩ path
      = ⟨none, ⟨some (path, none)⟩, false⟩ :=
    read_excel_data_hit_of_entry disk2 ⟨some (path, none)⟩ path none rfl
  have hevict : read_excel_data disk2 ⟨some (path, none)⟩ p'
      = ⟨disk2 p', ⟨some (p', disk2 p')⟩, true⟩ := by
    apply read_excel_data_miss
    intro v hv
    injection hv with hpair
    rw [Prod.mk.injEq] at hpair
    exact hne hpair.1.symm
  have hre : read_excel_data disk2
      (read_excel_data disk2 ⟨some (path, none)⟩ p').state path
      = ⟨disk2 path, ⟨some (path, disk2 path)⟩, true⟩ := by
    rw [hevict]
    apply read_excel_data_miss
    intro v hv
    injection hv with hpair
    rw [Prod.mk.injEq] at hpair
    exact hne hpair.1
  refine ⟨hfirst, hstale, ?_, ?_⟩ <;> rw [hre]
  rw [h2]

/-- C10 witness: the failure-caching behavior at concrete inputs. -/
theorem c10_witness :
    diskEmpty "a.xlsx" = none
    ∧ diskOnlyA "a.xlsx" = some [[("First Name", "Ana")]]
    ∧ ("b.xlsx" : String) ≠ "a.xlsx"
    ∧ read_excel_data diskEmpty ⟨none⟩ "a.xlsx"
        = ⟨none, ⟨some ("a.xlsx", none)⟩, true⟩
    ∧ read_excel_data diskOnlyA ⟨some ("a.xlsx", none)⟩ "a.xlsx"
        = ⟨none, ⟨some ("a.xlsx", none)⟩, false⟩
    ∧ (read_excel_data diskOnlyA
        (read_excel_data diskOnlyA ⟨some ("a.xlsx", none)⟩ "b.xlsx").state
        "a.xlsx").value = some [[("First Name", "Ana")]]
    ∧ (read_excel_data diskOnlyA
        (read_excel_data diskOnlyA ⟨some ("a.xlsx", none)⟩ "b.xlsx").state
        "a.xlsx").readDisk = true := by
  refine ⟨rfl, rfl, by decide, ?_⟩
  exact c10_failure_cached diskEmpty diskOnlyA "a.xlsx" "b.xlsx"
    [[("First Name", "Ana")]] rfl rfl (by decide)

/-! ## Helper lemmas: the artifact locator -/

/-- The running maximum of `max(..., key=ctime)` is one of the scanned
files. -/
theorem maxByCtime_mem (v : DiskFile) (vs : List DiskFile) :
    maxByCtime v vs = v ∨ maxByCtime v vs ∈ vs := by
  induction vs generalizing v with
  | nil => exact Or.inl rfl
  | cons g gs ih =>
    have hstep : maxByCtime v (g :: gs)
        = maxByCtime (if v.ctime < g.ctime then g else v) gs := rfl
    rw [hstep]
    by_cases hc : v.ctime < g.ctime
    · rw [if_pos hc]
      rcases ih g with h | h
      · exact Or.inr (by rw [h]; exact List.mem_cons_self g gs)
      · exact Or.inr (List.mem_cons_of_mem g h)
    · rw [if_neg hc]
      rcases ih v with h | h
      · exact Or.inl h
      · exact Or.inr (List.mem_cons_of_mem g h)

/-- The running maximum of `max(..., key=ctime)` dominates the seed and
every scanned file. -/
theorem maxByCtime_le (v : DiskFile) (vs : List DiskFile) :
    v.ctime ≤ (maxByCtime v vs).ctime
    ∧ ∀ g ∈ vs, g.ctime ≤ (maxByCtime v vs).ctime := by
  induction vs generalizing v with
  | nil => exact ⟨le_refl _, by intro g hg; cases hg⟩
  | cons g gs ih =>
    have hstep : maxByCtime v (g :: gs)
        = maxByCtime (if v.ctime < g.ctime then g else v) gs := rfl
    rw [hstep]
    by_cases hc : v.ctime < g.ctime
    · rw [if_pos hc]
      obtain ⟨h1, h2⟩ := ih g
      refine ⟨le_trans (le_of_lt hc) h1, ?_⟩
      intro x hx
      rcases List.mem_cons.mp hx with hx' | hx'
      · rw [hx']; exact h1
      · exact h2 x hx'
    · rw [if_neg hc]
      obtain ⟨h1, h2⟩ := ih v
      refine ⟨h1, ?_⟩
      intro x hx
      rcases List.mem_cons.mp hx with hx' | hx'
      · rw [hx']; exact le_trans (le_of_not_lt hc) h1
      · exact h2 x hx'

/-- Membership in the valid-file list produced by the glob validation
loop. -/
theorem globScan_valid_mem (l : List DiskFile) (f : DiskFile) :
    f ∈ (globScan l).1 ↔ (f ∈ l ∧ 0 < f.size ∧ f.parsesOk = true) := by
  induction l with
  | nil => simp [globScan]
  | cons g gs ih =>
    by_cases hs : 0 < g.size
    · by_cases hp : g.parsesOk
      · simp only [globScan, if_pos hs, if_pos hp, List.mem_cons]
        constructor
        · intro h
          rcases h with h | h
          · exact ⟨Or.inl h, by rw [h]; exact ⟨hs, hp⟩⟩
          · obtain ⟨hm, hrest⟩ := ih.mp h
            exact ⟨Or.inr hm, hrest⟩
        · intro ⟨hm, hsz, hpk⟩
          rcases hm with hm | hm
          · exact Or.inl hm
          · exact Or.inr (ih.mpr ⟨hm, hsz, hpk⟩)
      · simp only [globScan, if_pos hs, if_neg hp, List.mem_cons]
        rw [ih]
        constructor
        · intro ⟨hm, hrest⟩
          exact ⟨Or.inr hm, hrest⟩
        · intro ⟨hm, hsz, hpk⟩
          rcases hm with hm | hm
          · exact absurd (hm ▸ hpk) hp
          · exact ⟨hm, hsz, hpk⟩
    · simp only [globScan, if_neg hs, List.mem_cons]
      rw [ih]
      constructor
      · intro ⟨hm, hrest⟩
        exact ⟨Or.inr hm, hrest⟩
      · intro ⟨hm, hsz, hpk⟩
        rcases hm with hm | hm
        · exact absurd (hm ▸ hsz) hs
        · exact ⟨hm, hsz, hpk⟩

/-- When every scanned file has positive size and fails parsing, the
validation loop keeps nothing and deletes everything. -/
theorem globScan_all_corrupt (l : List DiskFile)
    (h : ∀ f ∈ l, 0 < f.size ∧ f.parsesOk = false) :
    globScan l = ([], l.map DiskFile.name) := by
  induction l with
  | nil => rfl
  | cons g gs ih =>
    obtain ⟨hs, hp⟩ := h g (List.mem_cons_self g gs)
    have hrest := ih (fun f hf => h f (List.mem_cons_of_mem g hf))
    simp [globScan, hs, hp, hrest]

/-- In a scope whose file names are pairwise distinct, two members with
the same name are the same file. -/
theorem name_nodup_inj (l : List DiskFile)
    (hnd : (l.map DiskFile.name).Nodup) :
    ∀ a ∈ l, ∀ b ∈ l, a.name = b.name → a = b := by
  induction l with
  | nil => intro a ha; cases ha
  | cons x xs ih =>
    simp only [List.map_cons, List.nodup_cons] at hnd
    obtain ⟨hx, hnd'⟩ := hnd
    intro a ha b hb hab
    rcases List.mem_cons.mp ha with ha' | ha' <;>
      rcases List.mem_cons.mp hb with hb' | hb'
    · rw [ha', hb']
    · exfalso
      apply hx
      have hxb : x.name = b.name := by rw [← ha']; exact hab
      rw [hxb]
      exact List.mem_map_of_mem DiskFile.name hb'
    · exfalso
      apply hx
      have hxa : x.name = a.name := by rw [← hb']; exact hab.symm
      rw [hxa]
      exact List.mem_map_of_mem DiskFile.name ha'
    · exact ih hnd' a ha' b hb' hab

/-- The glob validation loop retains exactly the valid candidates of
the scope. -/
theorem valid_mem_globScan (scope : List DiskFile) (f : DiskFile) :
    f ∈ (globScan (scope.filter (fun f => matchesChallengeGlob f.name))).1
      ↔ (f ∈ scope ∧ isValidCandidate f = true) := by
  rw [globScan_valid_mem, List.mem_filter]
  simp only [isValidCandidate, Bool.and_eq_true, decide_eq_true_eq]
  constructor
  · intro ⟨⟨hm, hg⟩, hs, hp⟩
    exact ⟨hm, ⟨hg, hs⟩, hp⟩
  · intro ⟨hm, ⟨hg, hs⟩, hp⟩
    exact ⟨⟨hm, hg⟩, hs, hp⟩

/-- When the scope holds some valid candidate, the glob phase returns a
valid candidate of maximal creation time. -/
theorem globPhase_latest (scope : List DiskFile) (f0 : DiskFile)
    (hf0 : f0 ∈ scope) (hv0 : isValidCandidate f0 = true) :
    ∃ g, g ∈ scope ∧ isValidCandidate g = true
      ∧ (globPhase scope).1 = some g.name
      ∧ ∀ f ∈ scope, isValidCandidate f = true → f.ctime ≤ g.ctime := by
  have hmem0 : f0 ∈ (globScan (scope.filter (fun f => matchesChallengeGlob f.name))).1 :=
    (valid_mem_globScan scope f0).mpr ⟨hf0, hv0⟩
  rcases hlist : (globScan (scope.filter (fun f => matchesChallengeGlob f.name))).1
    with _ | ⟨v, vs⟩
  · rw [hlist] at hmem0; cases hmem0
  · have hm : maxByCtime v vs ∈ v :: vs := by
      rcases maxByCtime_mem v vs with h | h
      · rw [h]; exact List.mem_cons_self v vs
      · exact List.mem_cons_of_mem v h
    have hmax := (valid_mem_globScan scope (maxByCtime v vs)).mp (by rw [hlist]; exact hm)
    refine ⟨maxByCtime v vs, hmax.1, hmax.2, ?_, ?_⟩
    · simp only [globPhase]
      rw [hlist]
    · intro f hf hvf
      have hfm : f ∈ v :: vs := by
        rw [← hlist]
        exact (valid_mem_globScan scope f).mpr ⟨hf, hvf⟩
      obtain ⟨h1, h2⟩ := maxByCtime_le v vs
      rcases List.mem_cons.mp hfm with h | h
      · rw [h]; exact h1
      · exact h2 f h

/-- When every candidate of the scope has positive size and fails
parsing, the glob phase locates nothing and removes every candidate
from the scope. -/
theorem globPhase_all_corrupt (scope : List DiskFile)
    (h : ∀ f ∈ scope, matchesChallengeGlob f.name = true →
        (0 < f.size ∧ f.parsesOk = false)) :
    (globPhase scope).1 = none
    ∧ remainingCandidates (globPhase scope).2 = [] := by
  have hfiles : ∀ f ∈ scope.filter (fun f => matchesChallengeGlob f.name),
      0 < f.size ∧ f.parsesOk = false := by
    intro f hf
    obtain ⟨hm, hp⟩ := List.mem_filter.mp hf
    exact h f hm hp
  have hscan := globScan_all_corrupt _ hfiles
  constructor
  · simp only [globPhase, hscan]
  · simp only [globPhase, remainingCandidates, hscan]
    rw [List.filter_eq_nil_iff]
    intro g hg hgm
    obtain ⟨hgs, hnc⟩ := List.mem_filter.mp hg
    have hin : g.name ∈ (scope.filter (fun f => matchesChallengeGlob f.name)).map DiskFile.name :=
      List.mem_map_of_mem DiskFile.name (List.mem_filter.mpr ⟨hgs, hgm⟩)
    simp [hin] at hnc

/-- A scope member that is a maximal-ctime valid candidate satisfies
the scan the `returnsLatestValidCandidate` check performs. -/
theorem any_latest_of_exists (scope : List DiskFile) (g : DiskFile)
    (hg : g ∈ scope) (hvg : isValidCandidate g = true)
    (hmax : ∀ f ∈ scope, isValidCandidate f = true → f.ctime ≤ g.ctime) :
    scope.any (fun t => t.name == g.name && isLatestValid scope t) = true := by
  apply List.any_eq_true.mpr
  refine ⟨g, hg, ?_⟩
  have hall : scope.all
      (fun f => !(isValidCandidate f) || decide (f.ctime ≤ g.ctime)) = true := by
    apply List.all_eq_true.mpr
    intro f hf
    cases hvf : isValidCandidate f
    · simp
    · simp [hmax f hf hvf]
  rw [Bool.and_eq_true]
  constructor
  · exact beq_self_eq_true g.name
  · unfold isLatestValid
    rw [Bool.and_eq_true]
    exact ⟨hvg, hall⟩

/-- Anything the glob-phase maximum selection hands back makes the
`returnsLatestValidCandidate` check true for the surrounding scope. -/
theorem returnsLatest_glue (scope : List DiskFile) (g : DiskFile)
    (hg : g ∈ scope) (hvg : isValidCandidate g = true)
    (hmax : ∀ f ∈ scope, isValidCandidate f = true → f.ctime ≤ g.ctime)
    (heq : (find_latest_challenge_file scope).1 = some g.name) :
    returnsLatestValidCandidate scope = true := by
  unfold returnsLatestValidCandidate
  rw [heq]
  exact any_latest_of_exists scope g hg hvg hmax

/-- C6 counterexample: a scope whose valid candidate set is non-empty
(both files are valid candidates) for which the Artifact Locator
returns the direct-download artifact with creation time 1 rather than
the valid candidate with the latest creation time 10, so the locator
does return an older valid candidate. -/
theorem c6_direct_overrides_latest_counterexample :
    isValidCandidate ⟨"challenge_direct.xlsx", 5, true, 1⟩ = true
    ∧ isValidCandidate ⟨"newer_challenge.xlsx", 5, true, 10⟩ = true
    ∧ (find_latest_challenge_file directOlderScope).1 = some "challenge_direct.xlsx"
    ∧ returnsLatestValidCandidate directOlderScope = false := by decide

/-- C6 amended: if the direct-download artifact `challenge_direct.xlsx`
is present, non-empty and parses, the Artifact Locator returns it
regardless of creation time; otherwise, on any scope with pairwise
distinct file names whose valid candidate set is non-empty, the
locator returns a valid candidate with the latest creation time, never
an older one. -/
theorem c6_locator_amended (scope : List DiskFile)
    (hnd : (scope.map DiskFile.name).Nodup) :
    (directArtifactValid scope = true →
      (find_latest_challenge_file scope).1 = some "challenge_direct.xlsx")
    ∧ (directArtifactValid scope = false → hasValidCandidate scope = true →
      returnsLatestValidCandidate scope = true) := by
  constructor
  · intro hdv
    rcases hfind : scope.find? (fun f => f.name == "challenge_direct.xlsx") with _ | f
    · rw [directArtifactValid, hfind] at hdv
      cases hdv
    · rw [directArtifactValid, hfind] at hdv
      simp only [Bool.and_eq_true, decide_eq_true_eq] at hdv
      obtain ⟨hs, hp⟩ := hdv
      have hfname : f.name = "challenge_direct.xlsx" := by simpa using List.find?_some hfind
      simp only [find_latest_challenge_file, hfind, if_pos hs, hp, if_true, hfname]
  · intro hdv hvc
    obtain ⟨f0, hf0, hv0⟩ := List.any_eq_true.mp hvc
    rcases hfind : scope.find? (fun f => f.name == "challenge_direct.xlsx") with _ | f
    · obtain ⟨g, hg, hvg, heqg, hmax⟩ := globPhase_latest scope f0 hf0 hv0
      apply returnsLatest_glue scope g hg hvg hmax
      simp only [find_latest_challenge_file, hfind]
      exact heqg
    · rw [directArtifactValid, hfind] at hdv
      have hfname : f.name = "challenge_direct.xlsx" := by simpa using List.find?_some hfind
      have hfmem : f ∈ scope := List.mem_of_find?_eq_some hfind
      by_cases hs : 0 < f.size
      · have hp : f.parsesOk = false := by
          rcases Bool.and_eq_false_iff.mp hdv with h | h
          · exact absurd hs (by simpa using h)
          · exact h
        have hsub : ∀ t ∈ scope, isValidCandidate t = true →
            t ∈ deleteByName scope "challenge_direct.xlsx" := by
          intro t ht hvt
          apply List.mem_filter.mpr
          refine ⟨ht, ?_⟩
          simp only [decide_eq_true_eq]
          intro hteq
          have : t = f := name_nodup_inj scope hnd t ht f hfmem (by rw [hteq, hfname])
          rw [isValidCandidate, Bool.and_eq_true] at hvt
          rw [this] at hvt
          rw [hvt.2] at hp
          cases hp
        obtain ⟨g, hg, hvg, heqg, hmax⟩ :=
          globPhase_latest (deleteByName scope "challenge_direct.xlsx") f0
            (hsub f0 hf0 hv0) hv0
        apply returnsLatest_glue scope g (List.mem_of_mem_filter hg) hvg
        · intro t ht hvt
          exact hmax t (hsub t ht hvt) hvt
        · simp only [find_latest_challenge_file, hfind, if_pos hs, hp]
          exact heqg
      · obtain ⟨g, hg, hvg, heqg, hmax⟩ := globPhase_latest scope f0 hf0 hv0
        apply returnsLatest_glue scope g hg hvg hmax
        simp only [find_latest_challenge_file, hfind, if_neg hs]
        exact heqg

/-- C6 witness: the locator at concrete scopes — the valid direct
artifact wins; without one the newest valid candidate wins. -/
theorem c6_witness :
    (find_latest_challenge_file directOlderScope).1 = some "challenge_direct.xlsx"
    ∧ returnsLatestValidCandidate twoCandidateScope = true := by
  constructor
  · exact (c6_locator_amended directOlderScope (by decide)).1 (by decide)
  · exact (c6_locator_amended twoCandidateScope (by decide)).2 (by decide) (by decide)

/-- C7 counterexample: a scope holding only corrupt candidate files (a
single zero-byte candidate, which fails validation) for which the
locator returns absent but does not prune the candidate: one file
matching the candidate pattern remains in the scope afterward. -/
theorem c7_zero_byte_counterexample :
    onlyCorruptCandidates zeroByteScope = true
    ∧ (find_latest_challenge_file zeroByteScope).1 = none
    ∧ (remainingCandidates (find_latest_challenge_file zeroByteScope).2).length = 1 := by
  decide

/-- C7 amended: for every artifact scope in which each candidate file
(file matching the pattern) has positive size and fails parsing, the
locator returns absent and afterward the scope contains zero files
matching the candidate pattern; zero-byte candidates, by contrast, are
only skipped, not deleted. -/
theorem c7_corrupt_pruned_amended (scope : List DiskFile)
    (h : ∀ f ∈ scope, matchesChallengeGlob f.name = true →
        (0 < f.size ∧ f.parsesOk = false)) :
    (find_latest_challenge_file scope).1 = none
    ∧ remainingCandidates (find_latest_challenge_file scope).2 = [] := by
  have hdg : matchesChallengeGlob "challenge_direct.xlsx" = true := by decide
  rcases hfind : scope.find? (fun f => f.name == "challenge_direct.xlsx") with _ | f
  · have hres := globPhase_all_corrupt scope h
    simpa only [find_latest_challenge_file, hfind] using hres
  · have hfname : f.name = "challenge_direct.xlsx" := by simpa using List.find?_some hfind
    have hfmem : f ∈ scope := List.mem_of_find?_eq_some hfind
    obtain ⟨hs, hp⟩ := h f hfmem (by rw [hfname]; exact hdg)
    have hsub : ∀ g ∈ deleteByName scope "challenge_direct.xlsx",
        matchesChallengeGlob g.name = true → (0 < g.size ∧ g.parsesOk = false) :=
      fun g hg hm => h g (List.mem_of_mem_filter hg) hm
    have hres := globPhase_all_corrupt (deleteByName scope "challenge_direct.xlsx") hsub
    have hred : find_latest_challenge_file scope
        = globPhase (deleteByName scope "challenge_direct.xlsx") := by
      simp [find_latest_challenge_file, hfind, if_pos hs, hp]
    rw [hred]
    exact hres

/-- C7 witness: the amended pruning behavior at a concrete scope of two
positive-size parse-failing candidates. -/
theorem c7_witness :
    (find_latest_challenge_file corruptScope).1 = none
    ∧ remainingCandidates (find_latest_challenge_file corruptScope).2 = [] :=
  c7_corrupt_pruned_amended corruptScope (by decide)

/-! ## Helper lemmas: retry supervisor and coordinator -/

/-- How many `agent.run` calls the retry wrapper makes: two when the
first call times out, otherwise one. -/
theorem invoke_with_retry_count (behavior : Nat → InvOutcome) (steps time : Nat) :
    (invoke_with_retry behavior steps time).invocations.length
      = (if (behavior 0).isTimeout = true then 2 else 1) := by
  unfold invoke_with_retry
  rcases h0 : behavior 0 with h | _ | _ <;>
    simp [waitFor, InvOutcome.isTimeout]

/-- C3: `close_resources` executes on every exit path of
`run_automation` (normal completion, any phase failure, cancellation),
it always returns normally (an error while closing is logged, never
re-raised), and the presence of a close-time error changes neither the
result that crosses the coordinator boundary nor the summary writes,
so release never aborts termination. -/
theorem c3_release_on_every_exit_path (env : AutomationEnv) (m : Option String) :
    (run_automation env).closed = true
    ∧ (close_resources env.closeErr).1 = .ok ()
    ∧ (run_automation (setCloseErr env m)).closed = true
    ∧ (run_automation (setCloseErr env m)).result = (run_automation env).result
    ∧ (run_automation (setCloseErr env m)).summaryWrites
        = (run_automation env).summaryWrites := by
  have hcl : ∀ e : AutomationEnv, (run_automation e).closed = true := by
    intro e
    rcases ho : (runBody e).1 with r | ex
    · simp [run_automation, ho]
    · rcases ex <;> simp [run_automation, ho, PyExc.isException]
  have hco : (close_resources env.closeErr).1 = .ok () := by
    rcases env.closeErr with _ | s <;> rfl
  rcases ho : (runBody env).1 with r | ex
  · have ho' : (runBody (setCloseErr env m)).1 = Outcome.ok r := ho
    refine ⟨hcl env, hco, hcl _, ?_, ?_⟩ <;> simp [run_automation, ho, ho']
  · have ho' : (runBody (setCloseErr env m)).1 = Outcome.raise ex := ho
    refine ⟨hcl env, hco, hcl _, ?_, ?_⟩ <;>
      rcases ex <;> simp [run_automation, ho, ho', PyExc.isException]

/-- C1: when the first invocation of a retry-wrapped agent call times
out, exactly one automatic re-invocation is made, with the identical
step budget and time budget, and the wrapper's result is exactly the
second invocation's result (so a completing re-invocation is returned
and no timeout failure is raised for the phase); when the re-invocation
also times out, there is no third invocation and the run produces a
non-success Result Record (the `TimeoutError` is caught by the
coordinator's failure path), with the summary still written and
resources still released. -/
theorem c1_timeout_supervisor_single_retry (steps time : Nat)
    (behavior : Nat → InvOutcome) (env : AutomationEnv)
    (h0 : behavior 0 = .timeout) :
    (invoke_with_retry behavior steps time).invocations
        = [⟨steps, time⟩, ⟨steps, time⟩]
    ∧ (invoke_with_retry behavior steps time).result = waitFor (behavior 1)
    ∧ (behavior 1 = .timeout →
        isFailureRecord (run_automation (setFetchFallback env behavior)).result = true
        ∧ (run_automation (setFetchFallback env behavior)).summaryWrites = 1
        ∧ (run_automation (setFetchFallback env behavior)).closed = true) := by
  have hretry : invoke_with_retry behavior steps time
      = ⟨waitFor (behavior 1), [⟨steps, time⟩, ⟨steps, time⟩]⟩ := by
    unfold invoke_with_retry
    rw [h0]
    rfl
  refine ⟨by rw [hretry], by rw [hretry], ?_⟩
  intro h1
  have hdl : run_download_agent ⟨true, none, env.liteOutcome, behavior⟩
      = ⟨.raise .timeoutErr, 0, true, 2⟩ := by
    simp [run_download_agent, invoke_with_retry, h0, h1, waitFor]
  have hbody : (runBody (setFetchFallback env behavior)).1
      = Outcome.raise .timeoutErr := by
    have hdl' : run_download_agent ⟨(setFetchFallback env behavior).contextOk,
        (setFetchFallback env behavior).directNet,
        (setFetchFallback env behavior).liteOutcome,
        (setFetchFallback env behavior).fetchBehavior⟩
        = ⟨.raise .timeoutErr, 0, true, 2⟩ := hdl
    simp [runBody, hdl']
  refine ⟨?_, ?_, ?_⟩ <;>
    simp [run_automation, hbody, isFailureRecord, PyExc.isException]

/-- C1 witness: the retry discipline at concrete behaviors — a
double-timeout run of the fetch fallback makes exactly two invocations
with budgets 25/300 and yields a non-success Result Record; a
timeout-then-completion run of the submission budgets 100/600 makes two
invocations and returns the second invocation's history. -/
theorem c1_witness :
    (invoke_with_retry behaviorTimeoutTwice 25 300).invocations
        = [⟨25, 300⟩, ⟨25, 300⟩]
    ∧ (invoke_with_retry behaviorTimeoutThenDone 100 600).invocations
        = [⟨100, 600⟩, ⟨100, 600⟩]
    ∧ (invoke_with_retry behaviorTimeoutThenDone 100 600).result = .ok histDone
    ∧ isFailureRecord
        (run_automation (setFetchFallback baseEnv behaviorTimeoutTwice)).result = true
    ∧ (run_automation (setFetchFallback baseEnv behaviorTimeoutTwice)).summaryWrites
        = 1 := by
  obtain ⟨ha, _, hc⟩ :=
    c1_timeout_supervisor_single_retry 25 300 behaviorTimeoutTwice baseEnv rfl
  obtain ⟨hd, he, _⟩ :=
    c1_timeout_supervisor_single_retry 100 600 behaviorTimeoutThenDone baseEnv rfl
  obtain ⟨hf, hg, _⟩ := hc rfl
  exact ⟨ha, hd, he, hf, hg⟩

/-- C5 counterexample: a run in which the direct fetch succeeds
validation (file written with 1000 bytes, parses with 10 rows) and yet
the agent-driven fetch strategy is invoked, because the lightweight
page-confirmation invocation that follows a validated direct fetch
lives inside the same `try` block and its `TimeoutError` falls through
to the fallback. -/
theorem c5_lite_timeout_counterexample :
    directFetchValid liteTimeoutEnv.directNet = true
    ∧ (run_download_agent liteTimeoutEnv).fallbackEntered = true
    ∧ (run_download_agent liteTimeoutEnv).fallbackRunCalls = 1 := by
  exact ⟨rfl, rfl, rfl⟩

/-- C5 amended: the fetch phase enters the agent-driven fallback
exactly when it is not the case that the direct fetch validated and
the lightweight confirmation invocation avoided a timeout; when the
fallback is entered its agent run is called exactly once unless the
first call times out (in which case exactly twice), and when it is not
entered the fallback agent is never run. -/
theorem c5_fallback_amended (env : DownloadEnv) (hctx : env.contextOk = true) :
    (run_download_agent env).fallbackEntered
      = !(directFetchValid env.directNet && !((env.liteOutcome).isTimeout))
    ∧ (run_download_agent env).fallbackRunCalls
      = (if (run_download_agent env).fallbackEntered = true
         then (if (env.fetchBehavior 0).isTimeout = true then 2 else 1) else 0) := by
  obtain ⟨ctx, net, lite, fb⟩ := env
  simp only at hctx
  subst hctx
  have hcount := invoke_with_retry_count fb 25 300
  rcases net with _ | ⟨sz, parsed⟩
  · simp [run_download_agent, directFetchValid, hcount]
  · by_cases hsz : 0 < sz
    · rcases parsed with _ | rows
      · simp [run_download_agent, directFetchValid, hsz, hcount]
      · by_cases hrow : 0 < rows
        · rcases lite with h | _ | _ <;>
            simp [run_download_agent, directFetchValid, waitFor,
              InvOutcome.isTimeout, hsz, hrow, hcount]
        · simp [run_download_agent, directFetchValid, hsz, hrow, hcount]
    · simp [run_download_agent, directFetchValid, hsz, hcount]

/-- C5 witness: the amended branching at concrete download
environments — a validated direct fetch with a completing confirmation
invocation never enters the fallback; the lite-timeout environment
enters it with one run call. -/
theorem c5_witness :
    (run_download_agent directOkEnv).fallbackEntered
      = !(directFetchValid directOkEnv.directNet && !((directOkEnv.liteOutcome).isTimeout))
    ∧ (run_download_agent directOkEnv).fallbackRunCalls
      = (if (run_download_agent directOkEnv).fallbackEntered = true
         then (if (directOkEnv.fetchBehavior 0).isTimeout = true then 2 else 1) else 0)
    ∧ (run_download_agent liteTimeoutEnv).fallbackEntered
      = !(directFetchValid liteTimeoutEnv.directNet && !((liteTimeoutEnv.liteOutcome).isTimeout)) := by
  obtain ⟨ha, hb⟩ := c5_fallback_amended directOkEnv rfl
  obtain ⟨hc, _⟩ := c5_fallback_amended liteTimeoutEnv rfl
  exact ⟨ha, hb, hc⟩

/-- Behavior of the poll loop tail starting at attempt `i` with `fuel`
attempts left: the loop index advances by at most `fuel`; on exhaustion
the loop has used every attempt and `excel_file` holds the last
locator answer; on a `break` the attempt that broke observed a located
candidate of positive size unchanged across the delay. -/
theorem pollGo_spec (obs : Nat → PollObs) :
    ∀ (fuel i : Nat) (cur : Option String),
      (pollGo obs fuel i cur).attempts ≤ i + fuel
      ∧ i ≤ (pollGo obs fuel i cur).attempts
      ∧ ((pollGo obs fuel i cur).accepted = false →
          (pollGo obs fuel i cur).attempts = i + fuel
          ∧ (pollGo obs fuel i cur).file
              = (if fuel = 0 then cur else (obs (i + fuel - 1)).located))
      ∧ ((pollGo obs fuel i cur).accepted = true →
          1 ≤ (pollGo obs fuel i cur).attempts
          ∧ i ≤ (pollGo obs fuel i cur).attempts - 1
          ∧ (obs ((pollGo obs fuel i cur).attempts - 1)).located
              = (pollGo obs fuel i cur).file
          ∧ 0 < (obs ((pollGo obs fuel i cur).attempts - 1)).sizeAtCheck
          ∧ (obs ((pollGo obs fuel i cur).attempts - 1)).sizeAtCheck
              = (obs ((pollGo obs fuel i cur).attempts - 1)).sizeAfterDelay) := by
  intro fuel
  induction fuel with
  | zero =>
    intro i cur
    refine ⟨by simp [pollGo], by simp [pollGo], ?_, ?_⟩
    · intro _
      exact ⟨by simp [pollGo], by simp [pollGo]⟩
    · intro h
      simp [pollGo] at h
  | succ n ih =>
    intro i cur
    rcases hloc : (obs i).located with _ | f
    · have hred : pollGo obs (n + 1) i cur = pollGo obs n (i + 1) none := by
        simp only [pollGo, hloc]
      rw [hred]
      obtain ⟨ha, hi, hfls, htru⟩ := ih (i + 1) none
      refine ⟨by omega, by omega, ?_, ?_⟩
      · intro hacc
        obtain ⟨h1, h2⟩ := hfls hacc
        refine ⟨by omega, ?_⟩
        rw [if_neg (Nat.succ_ne_zero n)]
        by_cases hn : n = 0
        · subst hn
          rw [if_pos rfl] at h2
          have hidx : i + (0 + 1) - 1 = i := by omega
          rw [h2, hidx, hloc]
        · rw [if_neg hn] at h2
          have hidx : i + 1 + n - 1 = i + (n + 1) - 1 := by omega
          rw [h2, hidx]
      · intro hacc
        obtain ⟨h1, h2, h3, h4, h5⟩ := htru hacc
        exact ⟨h1, by omega, h3, h4, h5⟩
    · by_cases hsz : 0 < (obs i).sizeAtCheck
      · by_cases hst : (obs i).sizeAtCheck = (obs i).sizeAfterDelay
        · have hred : pollGo obs (n + 1) i cur = ⟨some f, i + 1, true⟩ := by
            simp only [pollGo, hloc]
            rw [if_pos hsz, if_pos hst]
          rw [hred]
          dsimp only
          refine ⟨by omega, by omega, ?_, ?_⟩
          · intro hacc
            simp at hacc
          · intro _
            have hidx : i + 1 - 1 = i := by omega
            rw [hidx]
            exact ⟨by omega, by omega, hloc, hsz, hst⟩
        · have hred : pollGo obs (n + 1) i cur = pollGo obs n (i + 1) (some f) := by
            simp only [pollGo, hloc]
            rw [if_pos hsz, if_neg hst]
          rw [hred]
          obtain ⟨ha, hi, hfls, htru⟩ := ih (i + 1) (some f)
          refine ⟨by omega, by omega, ?_, ?_⟩
          · intro hacc
            obtain ⟨h1, h2⟩ := hfls hacc
            refine ⟨by omega, ?_⟩
            rw [if_neg (Nat.succ_ne_zero n)]
            by_cases hn : n = 0
            · subst hn
              rw [if_pos rfl] at h2
              have hidx : i + (0 + 1) - 1 = i := by omega
              rw [h2, hidx, hloc]
            · rw [if_neg hn] at h2
              have hidx : i + 1 + n - 1 = i + (n + 1) - 1 := by omega
              rw [h2, hidx]
          · intro hacc
            obtain ⟨h1, h2, h3, h4, h5⟩ := htru hacc
            exact ⟨h1, by omega, h3, h4, h5⟩
      · have hred : pollGo obs (n + 1) i cur = pollGo obs n (i + 1) (some f) := by
          simp [pollGo, hloc, hsz]
        rw [hred]
        obtain ⟨ha, hi, hfls, htru⟩ := ih (i + 1) (some f)
        refine ⟨by omega, by omega, ?_, ?_⟩
        · intro hacc
          obtain ⟨h1, h2⟩ := hfls hacc
          refine ⟨by omega, ?_⟩
          rw [if_neg (Nat.succ_ne_zero n)]
          by_cases hn : n = 0
          · subst hn
            rw [if_pos rfl] at h2
            have hidx : i + (0 + 1) - 1 = i := by omega
            rw [h2, hidx, hloc]
          · rw [if_neg hn] at h2
            have hidx : i + 1 + n - 1 = i + (n + 1) - 1 := by omega
            rw [h2, hidx]
        · intro hacc
          obtain ⟨h1, h2, h3, h4, h5⟩ := htru hacc
          exact ⟨h1, by omega, h3, h4, h5⟩

/-- In the benign environment (every phase other than the poll loop
succeeds), the run's outcome is decided by the poll loop alone: a falsy
`excel_file` after the loop raises the not-found error producing a
failure record without reaching parsing, while any located path (stable
or not) proceeds through parsing and submission to a success record. -/
theorem run_automation_benign (obs : Nat → PollObs) :
    ((pollLoop obs).file = none →
      run_automation (benignEnv obs)
        = ⟨.ok ⟨false, some notFoundMsg, [notFoundMsg]⟩, 1, false, true, false⟩)
    ∧ (∀ f, (pollLoop obs).file = some f →
      run_automation (benignEnv obs)
        = ⟨.ok ⟨true, none, ["RESUMO FINAL DA EXECUCAO"]⟩, 1, true, true, false⟩) := by
  have hdl : run_download_agent
      ⟨true, some ⟨1000, some 10⟩, .completed ⟨true, []⟩, behaviorDone⟩
      = ⟨.ok ⟨true, []⟩, 1, false, 0⟩ := rfl
  have hpr : run_process_agent true behaviorDone = (.ok ⟨true, []⟩, 1) := rfl
  have hce : (benignEnv obs).closeErr = none := rfl
  constructor
  · intro hfile
    have hbody : runBody (benignEnv obs) = (.raise (.otherExc notFoundMsg), false) := by
      simp [runBody, benignEnv, histDone, hdl, hfile]
    simp [run_automation, hbody, hce, close_resources,
      PyExc.isException, PyExc.message]
  · intro f hfile
    have hbody : runBody (benignEnv obs)
        = (.ok ⟨true, none, ["RESUMO FINAL DA EXECUCAO"]⟩, true) := by
      simp [runBody, benignEnv, histDone, hdl, hpr, hfile]
    simp [run_automation, hbody, hce, close_resources]

/-- C4 counterexample: poll observations on which no attempt yields a
stable candidate (a located file whose size keeps changing across the
delay on all five attempts), yet the run does not fail with the
artifact-not-found error — it proceeds to parsing and completes with a
success record, because the post-loop check only tests whether the last
locator answer was falsy, not whether the stability check passed. -/
theorem c4_unstable_candidate_counterexample :
    noStableAttempt obsUnstable = true
    ∧ (run_automation (benignEnv obsUnstable)).reachedParsing = true
    ∧ (run_automation (benignEnv obsUnstable)).result
        = .ok ⟨true, none, ["RESUMO FINAL DA EXECUCAO"]⟩ := by
  have hrun := (run_automation_benign obsUnstable).2 "challenge.xlsx" rfl
  refine ⟨by decide, ?_, ?_⟩ <;> rw [hrun]

/-- C4 amended: the validation poll loop makes at most 5 attempts; a
candidate is accepted by the early `break` only when it is located with
positive byte size unchanged across the delay; when no attempt breaks,
all 5 attempts run and `excel_file` keeps the 5th attempt's locator
answer, so the run fails with the artifact-not-found error exactly when
the 5th attempt located nothing — if the 5th attempt located a
candidate that never passed the stability check, the run proceeds to
parsing with it anyway. -/
theorem c4_poll_loop_amended (obs : Nat → PollObs) :
    (pollLoop obs).attempts ≤ 5
    ∧ ((pollLoop obs).accepted = true →
        (obs ((pollLoop obs).attempts - 1)).located = (pollLoop obs).file
        ∧ 0 < (obs ((pollLoop obs).attempts - 1)).sizeAtCheck
        ∧ (obs ((pollLoop obs).attempts - 1)).sizeAtCheck
            = (obs ((pollLoop obs).attempts - 1)).sizeAfterDelay)
    ∧ ((pollLoop obs).accepted = false →
        (pollLoop obs).attempts = 5 ∧ (pollLoop obs).file = (obs 4).located)
    ∧ ((pollLoop obs).file = none →
        (run_automation (benignEnv obs)).result
            = .ok ⟨false, some notFoundMsg, [notFoundMsg]⟩
        ∧ (run_automation (benignEnv obs)).reachedParsing = false)
    ∧ ((pollLoop obs).file ≠ none →
        (run_automation (benignEnv obs)).reachedParsing = true
        ∧ (run_automation (benignEnv obs)).result
            = .ok ⟨true, none, ["RESUMO FINAL DA EXECUCAO"]⟩) := by
  obtain ⟨ha, hi, hfls, htru⟩ := pollGo_spec obs 5 0 none
  refine ⟨by simpa using ha, ?_, ?_, ?_, ?_⟩
  · intro hacc
    obtain ⟨_, _, h3, h4, h5⟩ := htru hacc
    exact ⟨h3, h4, h5⟩
  · intro hacc
    obtain ⟨h1, h2⟩ := hfls hacc
    constructor
    · simpa using h1
    · simpa using h2
  · intro hfile
    rw [(run_automation_benign obs).1 hfile]
    exact ⟨rfl, rfl⟩
  · intro hfile
    rcases hf : (pollLoop obs).file with _ | f
    · exact absurd hf hfile
    · rw [(run_automation_benign obs).2 f hf]
      exact ⟨rfl, rfl⟩

/-- C4 witness: the amended loop at concrete observation traces — a
trace that never locates anything runs all 5 attempts and the run
fails with the not-found record before parsing; a trace that locates a
stable candidate lets the run reach parsing. -/
theorem c4_witness :
    (pollLoop obsNever).attempts = 5
    ∧ (pollLoop obsNever).file = (obsNever 4).located
    ∧ (run_automation (benignEnv obsNever)).result
        = .ok ⟨false, some notFoundMsg, [notFoundMsg]⟩
    ∧ (run_automation (benignEnv obsNever)).reachedParsing = false
    ∧ (run_automation (benignEnv obsFound)).reachedParsing = true := by
  obtain ⟨_, _, h3, h4, _⟩ := c4_poll_loop_amended obsNever
  obtain ⟨_, _, _, _, h6⟩ := c4_poll_loop_amended obsFound
  obtain ⟨ha, hb⟩ := h3 rfl
  obtain ⟨hc, hd⟩ := h4 rfl
  obtain ⟨he, _⟩ := h6 (by decide)
  exact ⟨ha, hb, hc, hd, he⟩

/-- `wait_for` raises `CancelledError` only for a cancelled invocation. -/
theorem waitFor_cancelled (o : InvOutcome) (h : waitFor o = .raise .cancelled) :
    o = .cancelled := by
  rcases o with hh | _ | _ <;> simp [waitFor] at h ⊢

/-- The retry wrapper's result is the first invocation's result, or the
second invocation's result after a first timeout. -/
theorem invoke_with_retry_result (behavior : Nat → InvOutcome) (steps time : Nat) :
    (invoke_with_retry behavior steps time).result = waitFor (behavior 0)
    ∨ (behavior 0 = .timeout
        ∧ (invoke_with_retry behavior steps time).result = waitFor (behavior 1)) := by
  unfold invoke_with_retry
  rcases h0 : behavior 0 with hh | _ | _ <;> simp [waitFor]

/-- The retry wrapper propagates `CancelledError` only when one of its
two invocations was cancelled. -/
theorem invoke_with_retry_cancelled (behavior : Nat → InvOutcome) (steps time : Nat)
    (h : (invoke_with_retry behavior steps time).result = .raise .cancelled) :
    behavior 0 = .cancelled ∨ behavior 1 = .cancelled := by
  rcases invoke_with_retry_result behavior steps time with hr | ⟨_, hr⟩
  · exact Or.inl (waitFor_cancelled _ (hr.symm.trans h))
  · exact Or.inr (waitFor_cancelled _ (hr.symm.trans h))

/-- The four possible shapes of the fetch phase's outcome: the missing
browser-context `ValueError`, the lightweight confirmation agent's
history, a cancellation of the lightweight agent, or the fallback
wrapper's result. -/
theorem run_download_agent_outcome (ctx : Bool) (net : Option DirectContent)
    (lite : InvOutcome) (fb : Nat → InvOutcome) :
    (run_download_agent ⟨ctx, net, lite, fb⟩).outcome
        = .raise (.otherExc "Browser context nao inicializado")
    ∨ (∃ hh, (run_download_agent ⟨ctx, net, lite, fb⟩).outcome = .ok hh
        ∧ lite = .completed hh)
    ∨ ((run_download_agent ⟨ctx, net, lite, fb⟩).outcome = .raise .cancelled
        ∧ lite = .cancelled)
    ∨ (run_download_agent ⟨ctx, net, lite, fb⟩).outcome
        = (invoke_with_retry fb 25 300).result := by
  cases ctx
  · exact Or.inl rfl
  · rcases net with _ | ⟨sz, parsed⟩
    · exact Or.inr (Or.inr (Or.inr rfl))
    · by_cases hsz : 0 < sz
      · rcases parsed with _ | rows
        · refine Or.inr (Or.inr (Or.inr ?_))
          simp [run_download_agent, hsz]
        · by_cases hrow : 0 < rows
          · rcases lite with hh | _ | _
            · refine Or.inr (Or.inl ⟨hh, ?_, rfl⟩)
              simp [run_download_agent, hsz, hrow, waitFor]
            · refine Or.inr (Or.inr (Or.inr ?_))
              simp [run_download_agent, hsz, hrow, waitFor]
            · refine Or.inr (Or.inr (Or.inl ⟨?_, rfl⟩))
              simp [run_download_agent, hsz, hrow, waitFor]
          · refine Or.inr (Or.inr (Or.inr ?_))
            simp [run_download_agent, hsz, hrow]
      · refine Or.inr (Or.inr (Or.inr ?_))
        simp [run_download_agent, hsz]

/-- The fetch phase propagates `CancelledError` only when one of its
agent invocations was cancelled. -/
theorem run_download_agent_cancelled (ctx : Bool) (net : Option DirectContent)
    (lite : InvOutcome) (fb : Nat → InvOutcome)
    (h : (run_download_agent ⟨ctx, net, lite, fb⟩).outcome = .raise .cancelled) :
    lite = .cancelled ∨ fb 0 = .cancelled ∨ fb 1 = .cancelled := by
  rcases run_download_agent_outcome ctx net lite fb with h1 | ⟨hh, h1, _⟩ | ⟨_, h1⟩ | h1
  · rw [h1] at h
    simp at h
  · rw [h1] at h
    simp at h
  · exact Or.inl h1
  · rw [h1] at h
    exact Or.inr (invoke_with_retry_cancelled fb 25 300 h)

/-- The submission phase's outcome is the missing-context `ValueError`
or the retry wrapper's result with budgets 100/600. -/
theorem run_process_agent_outcome (ctx : Bool) (sb : Nat → InvOutcome) :
    (run_process_agent ctx sb).1
        = .raise (.otherExc "Browser context nao inicializado")
    ∨ (run_process_agent ctx sb).1 = (invoke_with_retry sb 100 600).result := by
  cases ctx
  · exact Or.inl rfl
  · exact Or.inr rfl

/-- The submission phase propagates `CancelledError` only when one of
its agent invocations was cancelled. -/
theorem run_process_agent_cancelled (ctx : Bool) (sb : Nat → InvOutcome)
    (h : (run_process_agent ctx sb).1 = .raise .cancelled) :
    sb 0 = .cancelled ∨ sb 1 = .cancelled := by
  rcases run_process_agent_outcome ctx sb with h1 | h1
  · rw [h1] at h
    simp at h
  · rw [h1] at h
    exact invoke_with_retry_cancelled sb 100 600 h

/-- The `try` body of `run_automation` either produces the success
record or raises; it raises `CancelledError` only when one of the
external calls was cancelled from outside. -/
theorem runBody_classify (env : AutomationEnv) :
    (runBody env).1 = .ok ⟨true, none, ["RESUMO FINAL DA EXECUCAO"]⟩
    ∨ (∃ e, (runBody env).1 = .raise e
        ∧ (e = .cancelled →
            env.liteOutcome = .cancelled ∨ env.fetchBehavior 0 = .cancelled
            ∨ env.fetchBehavior 1 = .cancelled
            ∨ env.processExcel = .raise .cancelled
            ∨ env.submitBehavior 0 = .cancelled
            ∨ env.submitBehavior 1 = .cancelled)) := by
  rcases hdo : (run_download_agent
      ⟨env.contextOk, env.directNet, env.liteOutcome, env.fetchBehavior⟩).outcome
    with dh | de
  · cases hdone : dh.is_done
    · refine Or.inr ⟨.otherExc "Falha ao baixar o arquivo Excel", ?_, ?_⟩
      · simp [runBody, hdo, hdone]
      · intro hc
        simp at hc
    · rcases hpf : (pollLoop env.pollObs).file with _ | f
      · refine Or.inr ⟨.otherExc notFoundMsg, ?_, ?_⟩
        · simp [runBody, hdo, hdone, hpf]
        · intro hc
          simp at hc
      · rcases hpe : env.processExcel with rows | e2
        · rcases hsp : (run_process_agent env.contextOk env.submitBehavior).1
            with ph | pe
          · cases hpd : ph.is_done
            · refine Or.inr ⟨.otherExc "Falha ao processar os dados do formulario", ?_, ?_⟩
              · simp [runBody, hdo, hdone, hpf, hpe, hsp, hpd]
              · intro hc
                simp at hc
            · refine Or.inl ?_
              simp [runBody, hdo, hdone, hpf, hpe, hsp, hpd]
          · refine Or.inr ⟨pe, ?_, ?_⟩
            · simp [runBody, hdo, hdone, hpf, hpe, hsp]
            · intro hc
              subst hc
              exact Or.inr (Or.inr (Or.inr (Or.inr
                (run_process_agent_cancelled _ _ hsp))))
        · refine Or.inr ⟨e2, ?_, ?_⟩
          · simp [runBody, hdo, hdone, hpf, hpe]
          · intro hc
            subst hc
            exact Or.inr (Or.inr (Or.inr (Or.inl rfl)))
  · refine Or.inr ⟨de, ?_, ?_⟩
    · simp [runBody, hdo]
    · intro hc
      subst hc
      rcases run_download_agent_cancelled _ _ _ _ hdo with h | h | h
      · exact Or.inl h
      · exact Or.inr (Or.inl h)
      · exact Or.inr (Or.inr (Or.inl h))

/-- C2 counterexample: an execution cancelled externally during the
fetch phase. The `CancelledError` is not an `Exception`, so the
coordinator's handler does not catch it: no Result Record is returned
(the exception crosses the coordinator boundary) and the durable
summary file is never written — only resource release still happens. -/
theorem c2_cancellation_counterexample :
    (run_automation cancelEnv).result = .raise .cancelled
    ∧ (run_automation cancelEnv).summaryWrites = 0
    ∧ (run_automation cancelEnv).closed = true := by
  exact ⟨rfl, rfl, rfl⟩

/-- C2 amended: for every execution of `run_automation` in which no
external call is cancelled from outside — normal completion or failure
at any phase through ordinary `Exception`s — the caller receives a
Result Record (a dict with a success flag, carrying an error message
whenever success is false) rather than a propagating exception, and
the durable summary file is written exactly once on both the success
and the failure path; on external cancellation, however, the
`CancelledError` propagates past the coordinator boundary and the
summary file is not written. -/
theorem c2_result_record_amended (env : AutomationEnv) (h : noCancellation env) :
    isOkRecord (run_automation env).result = true
    ∧ (run_automation env).summaryWrites = 1 := by
  obtain ⟨hl, hf0, hf1, hpe, hs0, hs1⟩ := h
  rcases runBody_classify env with hb | ⟨e, hb, horig⟩
  · constructor <;> simp [run_automation, hb, isOkRecord]
  · have he : e ≠ .cancelled := by
      intro hc
      rcases horig hc with h' | h' | h' | h' | h' | h'
      exacts [hl h', hf0 h', hf1 h', hpe h', hs0 h', hs1 h']
    have hex : e.isException = true := by
      rcases e with _ | m | _
      · rfl
      · rfl
      · exact absurd rfl he
    constructor <;> simp [run_automation, hb, hex, isOkRecord]

/-- C2 witness: the amended contract at a concrete cancellation-free
environment. -/
theorem c2_witness :
    isOkRecord (run_automation baseEnv).result = true
    ∧ (run_automation baseEnv).summaryWrites = 1 :=
  c2_result_record_amended baseEnv
    (by refine ⟨?_, ?_, ?_, ?_, ?_, ?_⟩ <;> decide)
